import Mathlib

/-!
Verification of the ANN similarity benchmarking harness (shootout.py).

The source is a single Python file that times and scores several
approximate-nearest-neighbour backends against an exact gensim index.
We embed the evaluator `get_accuracy`, the prediction adapters
(`flann_predictions`, `lsh_predictions`), the timing decorator `profile`
and the sequencing of backend sections in the main block, and prove the
specification claims about them.

Modelling conventions:
  * document vectors are lists of rationals; `numpy.dot` is `dot`;
  * the gensim similarity index is a record holding its mutable
    `num_best` field, its full ranked similarity function, and
    `vector_by_id`; the result shape of a gensim query depends on
    `num_best` (a dense similarity array when unset, a ranked
    (id, sim) list when set), captured by `GensimResult`;
  * Python failures (ZeroDivisionError, tuple-unpacking on an empty
    ground-truth list, numpy broadcast mismatch, IndexError) are
    modelled by `Option`: `none` means the call raises;
  * `get_accuracy` additionally returns the post-call index state (its
    `num_best` mutation survives the call) and the number of oracle
    queries (`gensim_index[query]` evaluations) it performed.
-/

namespace Shootout

/-- A dense document vector (a row of the clipped corpus matrix). -/
abbrev Vec := List ℚ

/-- numpy.dot of two vectors. -/
def dot (u v : Vec) : ℚ := (List.zipWith (· * ·) u v).sum

/-- Module-level default constants of shootout.py. -/
def TOP_N : ℕ := 50

/-- NUM_QUERIES global: query with this many documents. -/
def NUM_QUERIES : ℕ := 100

/-- REPEATS global: run all queries this many times, take the best timing. -/
def REPEATS : ℕ := 3

/-- The gensim similarity index: its mutable `num_best` attribute, the
full ranked (document id, similarity) list it would produce for a query,
and its `vector_by_id` accessor. -/
structure GensimIndex where
  num_best : Option ℕ
  docSims : Vec → List (ℕ × ℚ)
  vector_by_id : ℕ → Vec

/-- Shape of the value of `gensim_index[query]`: a dense similarity array
when `num_best` is unset, a ranked (id, sim) list of at most `num_best`
entries when it is set. -/
inductive GensimResult where
  | full (sims : List ℚ)
  | best (pairs : List (ℕ × ℚ))
  deriving DecidableEq

/-- `gensim_index[query]`: result shape depends on the `num_best` field. -/
def gensimQuery (ix : GensimIndex) (q : Vec) : GensimResult :=
  match ix.num_best with
  | none => GensimResult.full ((ix.docSims q).map Prod.snd)
  | some n => GensimResult.best ((ix.docSims q).take n)

/-- Elementwise `-numpy.array(xs) + ys` with numpy broadcasting rules:
equal lengths add pointwise, a length-one operand broadcasts, anything
else raises (`none`). The negation of the first operand is applied here. -/
def npNegAdd (xs ys : List ℚ) : Option (List ℚ) :=
  if xs.length = ys.length then some (List.zipWith (fun x y => -x + y) xs ys)
  else if xs.length = 1 then some (ys.map (fun y => -(xs.headD 0) + y))
  else if ys.length = 1 then some (xs.map (fun x => -x + ys.headD 0))
  else none

/-- One iteration of the `get_accuracy` loop body after the expected ids
and similarities are in hand: the intersection count added to `correct`,
and the per-slot similarity differences added to `diffs`.  Mirrors lines
126-130 of shootout.py: recompute each predicted similarity by a direct
dot product, pad missing slots with 0.0 up to TOP_N, then difference. -/
def queryStep (topN : ℕ) (ix : GensimIndex) (predicted : List ℕ) (query : Vec)
    (eids : List ℕ) (esims : List ℚ) : ℕ × Option (List ℚ) :=
  let c := ((eids.dedup).filter (fun i => predicted.contains i)).length
  let psims := predicted.map (fun id1 => dot (ix.vector_by_id id1) query)
  let padded := psims ++ List.replicate (topN - psims.length) 0
  (c, npNegAdd padded esims)

/-- The loop of `get_accuracy` over `enumerate(zip(predicted_ids, queries))`.
`ix` is the index after the `num_best` assignment.  Returns the final
`(correct, diffs)` accumulators (or `none` when an iteration raises) and
the number of oracle evaluations `gensim_index[query]` performed. -/
def accLoop (topN : ℕ) (ix : GensimIndex)
    (expecteds : Option (List (List ℕ × List ℚ))) :
    ℕ → List (List ℕ × Vec) → ℚ → List ℚ → Option (ℚ × List ℚ) × ℕ
  | _, [], correct, diffs => (some (correct, diffs), 0)
  | qno, (predicted, query) :: rest, correct, diffs =>
    match expecteds with
    | none =>
      -- expected_ids, expected_sims = zip(*gensim_index[query])
      (match gensimQuery ix query with
       | GensimResult.full _ => (none, 1)      -- not a pair list: unpacking raises
       | GensimResult.best [] => (none, 1)     -- zip(* of an empty list raises
       | GensimResult.best pairs =>
         let eids := pairs.map Prod.fst
         let esims := pairs.map Prod.snd
         match queryStep topN ix predicted query eids esims with
         | (_, none) => (none, 1)
         | (c, some dq) =>
           let r := accLoop topN ix none (qno + 1) rest (correct + c) (diffs ++ dq)
           (r.1, r.2 + 1))
    | some es =>
      -- expected_ids, expected_sims = expecteds[query_no]
      (match es[qno]? with
       | none => (none, 0)                     -- IndexError
       | some e =>
         match queryStep topN ix predicted query e.1 e.2 with
         | (_, none) => (none, 0)
         | (c, some dq) =>
           accLoop topN ix (some es) (qno + 1) rest (correct + c) (diffs ++ dq))

/-- `get_accuracy(predicted_ids, queries, gensim_index, expecteds)`,
lines 119-131 of shootout.py.  Returns the (precision, average
similarity difference) pair (`none` when the Python call raises), the
index as left behind by the call (its `num_best` set to `topN`), and
the number of oracle queries made while computing ground truth. -/
def get_accuracy (topN : ℕ) (predicted_ids : List (List ℕ)) (queries : List Vec)
    (gensim_index : GensimIndex)
    (expecteds : Option (List (List ℕ × List ℚ))) :
    Option (ℚ × ℚ) × GensimIndex × ℕ :=
  let ix := { gensim_index with num_best := some topN }
  let r := accLoop topN ix expecteds 0 (List.zip predicted_ids queries) 0 []
  ((match r.1 with
    | none => none
    | some (correct, diffs) =>
      if (topN : ℚ) * (queries.length : ℚ) = 0 then none
      else if (diffs.length : ℚ) = 0 then none
      else
        some (correct / ((topN : ℚ) * (queries.length : ℚ)),
              diffs.sum / (diffs.length : ℚ))),
   ix, r.2)

/-- `log_precision(method, index, queries, gensim_index, expecteds)`:
computes the predictions of a backend method and hands them to
`get_accuracy`.  The backend index is abstracted by the already-computed
prediction function. -/
def log_precision (topN : ℕ) (predictions : List Vec → List (List ℕ))
    (queries : List Vec) (gensim_index : GensimIndex)
    (expecteds : Option (List (List ℕ × List ℚ))) :
    Option (ℚ × ℚ) × GensimIndex × ℕ :=
  get_accuracy topN (predictions queries) queries gensim_index expecteds

/-- How the main block invokes `log_precision` for every backend: with
no `expecteds` argument, so the default `None` is used each time. -/
def mainBackendEval (topN : ℕ) (predictions : List Vec → List (List ℕ))
    (queries : List Vec) (gensim_index : GensimIndex) :
    Option (ℚ × ℚ) × GensimIndex × ℕ :=
  log_precision topN predictions queries gensim_index none

/-- Shape of the value of `index.nn_index(query, k)` in pyflann: for
`k = 1` a flat pair of an id array and a distance array, for `k > 1`
one row of ids and one row of distances per query vector. -/
inductive FlannResult where
  | flat (ids : List ℕ) (dists : List ℚ)
  | nested (ids : List (List ℕ)) (dists : List (List ℚ))
  deriving DecidableEq

/-- `index.nn_index(query, k)` on a single query vector, for a flann
index whose true ranked answer for a query is `ans` with distances
`dst`: flann returns differently shaped arrays when asked for only one
nearest neighbour. -/
def nn_index (ans : Vec → List ℕ) (dst : Vec → List ℚ) (query : Vec) (k : ℕ) :
    FlannResult :=
  if k = 1 then FlannResult.flat (ans query) (dst query)
  else FlannResult.nested [ans query] [dst query]

/-- `flann_predictions(index, queries)`, lines 95-100: when `TOP_N == 1`
the result of `nn_index` is unwrapped with one subscript (`[0]`), and
with two (`[0][0]`) otherwise.  The branch of the match not produced by
`nn_index` at the given `k` never occurs. -/
def flann_predictions (topN : ℕ) (ans : Vec → List ℕ) (dst : Vec → List ℚ)
    (queries : List Vec) : List (List ℕ) :=
  if topN = 1 then
    -- one subscript: `nn_index(query, TOP_N)[0]` is the flat id array;
    -- a nested result cannot arise at k = 1
    queries.map (fun query =>
      match nn_index ans dst query topN with
      | FlannResult.flat ids _ => ids
      | FlannResult.nested _ _ => [])
  else
    -- two subscripts: `nn_index(query, TOP_N)[0][0]` is the first id row;
    -- a flat result cannot arise at k > 1
    queries.map (fun query =>
      match nn_index ans dst query topN with
      | FlannResult.flat _ _ => []
      | FlannResult.nested ids _ => ids.headD [])

/-- `lsh_predictions(index, queries)`, lines 111-112.  The body reads
the module global `index_lsh` (modelled by its `Find` method, first
argument here), never the `index` parameter it was handed. -/
def lsh_predictions (topN : ℕ) (index_lsh : Vec → List (ℕ × ℚ))
    (index : Vec → List (ℕ × ℚ)) (queries : List Vec) : List (List ℕ) :=
  queries.map (fun query => ((index_lsh query).take topN).map Prod.fst)

/-- Python min over a nonempty list of timings. -/
def listMin : List ℚ → ℚ
  | [] => 0
  | x :: xs => xs.foldl min x

/-- The timings collected by the `profile` decorator: the wall-clock
duration of each of the `REPEATS` sequential passes over the workload,
with `dur i` the duration of pass `i`. -/
def profileTimes (dur : ℕ → ℚ) : List ℚ :=
  (List.range REPEATS).map dur

/-- The ms-per-query figure logged by `profile` (line 50):
`1000.0 * min(times) / NUM_QUERIES`.  The decorated function receives
the query workload, but the divisor is the module constant
`NUM_QUERIES`, not the length of that workload. -/
def profile_report (dur : ℕ → ℚ) (queries : List Vec) : ℚ :=
  1000 * listMin (profileTimes dur) / (NUM_QUERIES : ℚ)

/-- The per-query latency the specification describes: minimum pass
duration in milliseconds divided by the number of queries in the
workload.  Modelled from the spec for comparison with
`profile_report`. -/
def specPerQueryLatency (dur : ℕ → ℚ) (queries : List Vec) : ℚ :=
  1000 * listMin (profileTimes dur) / (queries.length : ℚ)

/-- The sequencing of the backend sections in the main block
(lines 202-277).  Each enabled section is a computation that either
completes (`Except.ok`) or raises (`Except.error`); the main block
wraps none of them in a handler, so the first raise propagates and no
later section runs.  Returns the sections that completed and the
uncaught error, if any, with the name of the section that raised. -/
def orchestrate : List (String × Except String Unit) →
    List String × Option (String × String)
  | [] => ([], none)
  | (name, act) :: rest =>
    match act with
    | Except.ok _ =>
      let r := orchestrate rest
      (name :: r.1, r.2)
    | Except.error msg => ([], some (name, msg))

/-! ### Characterization of the evaluator loop -/

/-- The intersection count one query adds to `correct` (line 126):
`len(set(expected_ids).intersection(predicted))`. -/
def slotCount (predicted eids : List ℕ) : ℕ :=
  ((eids.dedup).filter (fun i => predicted.contains i)).length

/-- The per-slot similarity differences one query adds to `diffs`
(lines 127-130): recomputed dot-product similarities of the predicted
ids, padded with zeros up to `topN` slots, subtracted pointwise from the
expected similarities. -/
def queryDiffs (topN : ℕ) (ix : GensimIndex) (predicted : List ℕ) (query : Vec)
    (esims : List ℚ) : List ℚ :=
  List.zipWith (fun x y => -x + y)
    (predicted.map (fun id1 => dot (ix.vector_by_id id1) query)
      ++ List.replicate (topN - predicted.length) 0)
    esims

lemma queryStep_eq (topN : ℕ) (ix : GensimIndex) (predicted : List ℕ)
    (query : Vec) (eids : List ℕ) (esims : List ℚ)
    (hp : predicted.length ≤ topN) (he : esims.length = topN) :
    queryStep topN ix predicted query eids esims =
      (slotCount predicted eids,
       some (queryDiffs topN ix predicted query esims)) := by
  have hlen : (predicted.map (fun id1 => dot (ix.vector_by_id id1) query)
      ++ List.replicate (topN - predicted.length) 0).length = topN := by
    simp only [List.length_append, List.length_map, List.length_replicate]
    omega
  simp [queryStep, npNegAdd, slotCount, queryDiffs, hlen, he]

lemma queryDiffs_length (topN : ℕ) (ix : GensimIndex) (predicted : List ℕ)
    (query : Vec) (esims : List ℚ)
    (hp : predicted.length ≤ topN) (he : esims.length = topN) :
    (queryDiffs topN ix predicted query esims).length = topN := by
  simp only [queryDiffs, List.length_zipWith, List.length_append,
    List.length_map, List.length_replicate]
  omega

lemma accLoop_some_spec (topN : ℕ) (ix : GensimIndex)
    (l : List (List ℕ × Vec)) (es : List (List ℕ × List ℚ)) :
    ∀ (rem : List (List ℕ × List ℚ)) (qno : ℕ) (c : ℚ) (d : List ℚ),
      es.drop qno = rem →
      l.length ≤ rem.length →
      (∀ pe ∈ l.zip rem, pe.1.1.length ≤ topN ∧ pe.2.2.length = topN) →
      accLoop topN ix (some es) qno l c d =
        (some (c + ((l.zip rem).map (fun pe => (slotCount pe.1.1 pe.2.1 : ℚ))).sum,
               d ++ ((l.zip rem).map
                 (fun pe => queryDiffs topN ix pe.1.1 pe.1.2 pe.2.2)).flatten),
         0) := by
  induction l with
  | nil => intro rem qno c d _ _ _; simp [accLoop]
  | cons pq rest ih =>
    intro rem qno c d hdrop hlen hcond
    obtain ⟨p, q⟩ := pq
    cases rem with
    | nil => simp at hlen
    | cons e rem1 =>
      have hget : es[qno]? = some e := by
        rw [← List.head?_drop, hdrop]; rfl
      have h1 : p.length ≤ topN ∧ e.2.length = topN := by
        have := hcond ((p, q), e) (by simp [List.zip_cons_cons])
        simpa using this
      have hqs := queryStep_eq topN ix p q e.1 e.2 h1.1 h1.2
      have hdrop1 : es.drop (qno + 1) = rem1 := by
        rw [← List.tail_drop, hdrop]; rfl
      have ih' := ih rem1 (qno + 1) (c + (slotCount p e.1 : ℚ))
        (d ++ queryDiffs topN ix p q e.2) hdrop1
        (by simpa using Nat.le_of_succ_le_succ (by simpa using hlen))
        (fun pe hpe => hcond pe (by
          rw [List.zip_cons_cons]
          exact List.mem_cons_of_mem _ hpe))
      simp only [accLoop, hget, hqs]
      rw [ih']
      simp [List.zip_cons_cons, add_assoc]

lemma accLoop_none_spec (topN : ℕ) (ix : GensimIndex)
    (hnb : ix.num_best = some topN) (htn : 0 < topN)
    (l : List (List ℕ × Vec)) :
    ∀ (qno : ℕ) (c : ℚ) (d : List ℚ),
      (∀ pq ∈ l, pq.1.length ≤ topN ∧
        ((ix.docSims pq.2).take topN).length = topN) →
      accLoop topN ix none qno l c d =
        (some (c + (l.map (fun pq =>
                 (slotCount pq.1 (((ix.docSims pq.2).take topN).map Prod.fst) : ℚ))).sum,
               d ++ (l.map (fun pq => queryDiffs topN ix pq.1 pq.2
                 (((ix.docSims pq.2).take topN).map Prod.snd))).flatten),
         l.length) := by
  induction l with
  | nil => intro qno c d _; simp [accLoop]
  | cons pq rest ih =>
    intro qno c d hcond
    obtain ⟨p, q⟩ := pq
    have h1 : p.length ≤ topN ∧ ((ix.docSims q).take topN).length = topN := by
      have := hcond (p, q) (by simp)
      simpa using this
    have hquery : gensimQuery ix q =
        GensimResult.best ((ix.docSims q).take topN) := by
      simp [gensimQuery, hnb]
    obtain ⟨hd, tl, hpairs⟩ :
        ∃ hd tl, (ix.docSims q).take topN = hd :: tl := by
      cases hpx : (ix.docSims q).take topN with
      | nil =>
        exfalso
        rw [hpx] at h1
        simp at h1
        omega
      | cons a b => exact ⟨a, b, rfl⟩
    have hqs := queryStep_eq topN ix p q
      (((ix.docSims q).take topN).map Prod.fst)
      (((ix.docSims q).take topN).map Prod.snd) h1.1 (by simpa using h1.2)
    have ih' := ih (qno + 1) (c + (slotCount p (((ix.docSims q).take topN).map Prod.fst) : ℚ))
      (d ++ queryDiffs topN ix p q (((ix.docSims q).take topN).map Prod.snd))
      (fun pe hpe => hcond pe (List.mem_cons_of_mem _ hpe))
    simp only [accLoop, hquery, hpairs] at ih' ⊢
    rw [hpairs] at hqs
    simp only [hqs]
    rw [← hpairs] at ih' ⊢
    rw [ih']
    simp [add_assoc]

lemma slotCount_eq_card (p eids : List ℕ) (h : eids.Nodup) :
    slotCount p eids = (eids.toFinset ∩ p.toFinset).card := by
  unfold slotCount
  rw [List.dedup_eq_self.mpr h]
  rw [← List.toFinset_card_of_nodup (h.filter _)]
  congr 1
  ext a
  simp [List.mem_filter, Finset.mem_inter]

lemma flatten_queryDiffs_length (topN : ℕ) (ix : GensimIndex)
    (L : List ((List ℕ × Vec) × (List ℕ × List ℚ)))
    (hcond : ∀ pe ∈ L, pe.1.1.length ≤ topN ∧ pe.2.2.length = topN) :
    ((L.map (fun pe => queryDiffs topN ix pe.1.1 pe.1.2 pe.2.2)).flatten).length
      = L.length * topN := by
  rw [List.length_flatten, List.map_map]
  have hmap : L.map (List.length ∘ fun pe => queryDiffs topN ix pe.1.1 pe.1.2 pe.2.2)
      = L.map (fun _ => topN) :=
    List.map_congr_left (fun pe hpe =>
      queryDiffs_length topN ix pe.1.1 pe.1.2 pe.2.2 (hcond pe hpe).1 (hcond pe hpe).2)
  rw [hmap, List.map_const', List.sum_replicate, smul_eq_mul]

/-- Reindexing: a function of the predicted list and the expected pair,
summed over the zipped loop list, ignores the query component. -/
lemma zip3_proj_map {α : Type} (g : List ℕ → List ℕ × List ℚ → α) :
    ∀ (ps : List (List ℕ)) (qs : List Vec) (es : List (List ℕ × List ℚ)),
      ps.length = qs.length →
      ((ps.zip qs).zip es).map (fun pe => g pe.1.1 pe.2)
        = (ps.zip es).map (fun pe => g pe.1 pe.2)
  | [], _, _, _ => by simp
  | _ :: _, [], _, h => by simp at h
  | _ :: _, _ :: _, [], _ => by simp
  | p :: ps, q :: qs, e :: es, h => by
    simp only [List.zip_cons_cons, List.map_cons]
    rw [zip3_proj_map g ps qs es (by simpa using h)]

/-- The index object as `get_accuracy` leaves it behind, whatever else
happens inside the call. -/
lemma get_accuracy_index (topN : ℕ) (ps : List (List ℕ)) (qs : List Vec)
    (ix : GensimIndex) (exp : Option (List (List ℕ × List ℚ))) :
    (get_accuracy topN ps qs ix exp).2.1 = { ix with num_best := some topN } :=
  rfl

/-! ### Claims -/

/-- C8: `lsh_predictions` ignores its `index` parameter: with the module
global `index_lsh` and the queries held fixed, any two values of the
`index` argument produce identical results, because the body reads the
global instead of the argument. -/
theorem lsh_predictions_ignores_index (topN : ℕ)
    (index_lsh index1 index2 : Vec → List (ℕ × ℚ)) (queries : List Vec) :
    lsh_predictions topN index_lsh index1 queries
      = lsh_predictions topN index_lsh index2 queries := rfl

/-- C10: `get_accuracy` on an empty query sequence raises a
division-by-zero error instead of returning a result: the precision
denominator `TOP_N * len(queries)` is zero (and the diffs list is empty
as well), so no (precision, avg diff) pair is produced. -/
theorem get_accuracy_empty_queries_raises (topN : ℕ) (ps : List (List ℕ))
    (ix : GensimIndex) (exp : Option (List (List ℕ × List ℚ))) :
    (get_accuracy topN ps [] ix exp).1 = none ∧
      (topN : ℚ) * ((List.length ([] : List Vec) : ℕ) : ℚ) = 0 := by
  constructor
  · unfold get_accuracy
    cases exp <;> simp [accLoop]
  · simp

/-- C9: every call to `get_accuracy` sets the `num_best` attribute of
the shared gensim index to the requested depth; the change survives the
call, so any later query through the same index returns the
`num_best`-shaped ranked list — and when the index previously had
`num_best` unset, the result shape of every subsequent query differs
from what it was before the call. -/
theorem get_accuracy_mutates_num_best (topN : ℕ) (ps : List (List ℕ))
    (qs : List Vec) (ix : GensimIndex)
    (exp : Option (List (List ℕ × List ℚ))) :
    (get_accuracy topN ps qs ix exp).2.1.num_best = some topN ∧
    (∀ q, gensimQuery (get_accuracy topN ps qs ix exp).2.1 q
        = GensimResult.best ((ix.docSims q).take topN)) ∧
    (ix.num_best = none →
      ∀ q, gensimQuery (get_accuracy topN ps qs ix exp).2.1 q ≠ gensimQuery ix q) := by
  rw [get_accuracy_index]
  refine ⟨rfl, fun q => rfl, fun hnone q => ?_⟩
  rw [gensimQuery, gensimQuery, hnone]
  simp

/-- Witness for C9 at a concrete index whose `num_best` starts unset. -/
theorem get_accuracy_mutates_num_best_witness :
    (get_accuracy 2 [[0]] [[1]]
        { num_best := none, docSims := fun _ => [(0, 1)], vector_by_id := fun _ => [1] }
        none).2.1.num_best = some 2 ∧
    gensimQuery (get_accuracy 2 [[0]] [[1]]
        { num_best := none, docSims := fun _ => [(0, 1)], vector_by_id := fun _ => [1] }
        none).2.1 [1]
      ≠ gensimQuery
        { num_best := none, docSims := fun _ => [(0, 1)], vector_by_id := fun _ => [1] }
        [1] := by
  have h := get_accuracy_mutates_num_best 2 [[0]] [[1]]
    { num_best := none, docSims := fun _ => [(0, 1)], vector_by_id := fun _ => [1] }
    none
  exact ⟨h.1, h.2.2 rfl [1]⟩

/-- C1: on a query set with exact top-`topN` ground truth (each expected
list holds `topN` distinct ids) and one predicted id-list of at most
`topN` entries per query, `get_accuracy` returns precision equal to the
sum over queries of the cardinality of the intersection of predicted and
expected ids, divided by `topN * query_count`; this value lies in
`[0, 1]`, and equals `1.0` when every predicted list equals the expected
ids.  The intersection of finite sets of ids ignores rank order. -/
theorem get_accuracy_precision_bounds
    (topN : ℕ) (ps : List (List ℕ)) (qs : List Vec) (ix : GensimIndex)
    (es : List (List ℕ × List ℚ))
    (htn : 0 < topN) (hq : qs ≠ [])
    (hlen : ps.length = qs.length) (helen : es.length = qs.length)
    (he : ∀ e ∈ es, e.1.length = topN ∧ e.1.Nodup ∧ e.2.length = topN)
    (hp : ∀ p ∈ ps, p.length ≤ topN) :
    ∃ prec avg, (get_accuracy topN ps qs ix (some es)).1 = some (prec, avg) ∧
      prec = ((ps.zip es).map
          (fun pe => ((pe.2.1.toFinset ∩ pe.1.toFinset).card : ℚ))).sum
        / ((topN : ℚ) * (qs.length : ℚ)) ∧
      0 ≤ prec ∧ prec ≤ 1 ∧
      (ps = es.map Prod.fst → prec = 1) := by
  have hq0 : 0 < qs.length := List.length_pos.mpr hq
  have hzlen : (ps.zip qs).length = qs.length := by
    rw [List.length_zip, hlen, min_self]
  have hLlen : ((ps.zip qs).zip es).length = qs.length := by
    rw [List.length_zip, hzlen, helen, min_self]
  have hcond : ∀ pe ∈ (ps.zip qs).zip es,
      pe.1.1.length ≤ topN ∧ pe.2.2.length = topN := by
    intro pe hpe
    obtain ⟨h1, h2⟩ := List.of_mem_zip hpe
    obtain ⟨hp1, _⟩ := List.of_mem_zip h1
    exact ⟨hp _ hp1, (he _ h2).2.2⟩
  have hacc := accLoop_some_spec topN { ix with num_best := some topN }
    (ps.zip qs) es es 0 0 [] rfl (by rw [hzlen, helen]) hcond
  have hdlen : ((((ps.zip qs).zip es).map
      (fun pe => queryDiffs topN { ix with num_best := some topN }
        pe.1.1 pe.1.2 pe.2.2)).flatten).length = qs.length * topN := by
    rw [flatten_queryDiffs_length _ _ _ hcond, hLlen]
  have hden : (topN : ℚ) * (qs.length : ℚ) ≠ 0 :=
    mul_ne_zero (Nat.cast_ne_zero.mpr (by omega)) (Nat.cast_ne_zero.mpr (by omega))
  have hpos : (0 : ℚ) < (topN : ℚ) * (qs.length : ℚ) := by
    have h1 : (0 : ℚ) < (topN : ℚ) := by exact_mod_cast htn
    have h2 : (0 : ℚ) < (qs.length : ℚ) := by exact_mod_cast hq0
    exact mul_pos h1 h2
  have hD0 : (((((ps.zip qs).zip es).map
      (fun pe => queryDiffs topN { ix with num_best := some topN }
        pe.1.1 pe.1.2 pe.2.2)).flatten).length : ℚ) ≠ 0 := by
    rw [hdlen]
    exact Nat.cast_ne_zero.mpr (Nat.mul_ne_zero (by omega) (by omega))
  have hS : ((((ps.zip qs).zip es).map
        (fun pe => (slotCount pe.1.1 pe.2.1 : ℚ))).sum)
      = ((ps.zip es).map
          (fun pe => ((pe.2.1.toFinset ∩ pe.1.toFinset).card : ℚ))).sum := by
    rw [zip3_proj_map (fun p e => ((slotCount p e.1 : ℕ) : ℚ)) ps qs es hlen]
    apply congrArg List.sum
    apply List.map_congr_left
    intro pe hpe
    obtain ⟨_, h2⟩ := List.of_mem_zip hpe
    rw [slotCount_eq_card _ _ (he _ h2).2.1]
  refine ⟨((((ps.zip qs).zip es).map
        (fun pe => (slotCount pe.1.1 pe.2.1 : ℚ))).sum)
      / ((topN : ℚ) * (qs.length : ℚ)),
    (((((ps.zip qs).zip es).map
        (fun pe => queryDiffs topN { ix with num_best := some topN }
          pe.1.1 pe.1.2 pe.2.2)).flatten).sum)
      / (((((ps.zip qs).zip es).map
        (fun pe => queryDiffs topN { ix with num_best := some topN }
          pe.1.1 pe.1.2 pe.2.2)).flatten).length : ℚ),
    ?_, ?_, ?_, ?_, ?_⟩
  · simp only [get_accuracy, hacc, zero_add, List.nil_append]
    rw [if_neg hden, if_neg hD0]
  · rw [hS]
  · rw [hS]
    apply div_nonneg _ (le_of_lt hpos)
    apply List.sum_nonneg
    intro x hx
    obtain ⟨pe, _, rfl⟩ := List.mem_map.mp hx
    exact Nat.cast_nonneg _
  · rw [hS, div_le_one hpos]
    have hbound : ∀ x ∈ (ps.zip es).map
        (fun pe => ((pe.2.1.toFinset ∩ pe.1.toFinset).card : ℚ)), x ≤ (topN : ℚ) := by
      intro x hx
      obtain ⟨pe, hpe, rfl⟩ := List.mem_map.mp hx
      obtain ⟨_, h2⟩ := List.of_mem_zip hpe
      have hle : (pe.2.1.toFinset ∩ pe.1.toFinset).card ≤ topN := by
        calc (pe.2.1.toFinset ∩ pe.1.toFinset).card
            ≤ pe.2.1.toFinset.card := Finset.card_le_card Finset.inter_subset_left
          _ = pe.2.1.length := List.toFinset_card_of_nodup (he _ h2).2.1
          _ = topN := (he _ h2).1
      exact_mod_cast hle
    calc ((ps.zip es).map
        (fun pe => ((pe.2.1.toFinset ∩ pe.1.toFinset).card : ℚ))).sum
        ≤ (((ps.zip es).map
            (fun pe => ((pe.2.1.toFinset ∩ pe.1.toFinset).card : ℚ))).length) • (topN : ℚ) :=
          List.sum_le_card_nsmul _ _ hbound
      _ = ((ps.zip es).length : ℚ) * (topN : ℚ) := by
          rw [List.length_map, nsmul_eq_mul]
      _ = (topN : ℚ) * (qs.length : ℚ) := by
          rw [List.length_zip, hlen, helen, min_self, mul_comm]
  · intro hps
    rw [hS]
    have hz : (es.map Prod.fst).zip es = es.map (fun e => (e.1, e)) := by
      have hmid := List.zip_map' Prod.fst id es
      simpa using hmid
    have hsum : ((ps.zip es).map
        (fun pe => ((pe.2.1.toFinset ∩ pe.1.toFinset).card : ℚ))).sum
        = (topN : ℚ) * (qs.length : ℚ) := by
      rw [hps, hz, List.map_map]
      have hconst : es.map ((fun pe => ((pe.2.1.toFinset ∩ pe.1.toFinset).card : ℚ))
            ∘ (fun e => (e.1, e)))
          = es.map (fun _ => (topN : ℚ)) := by
        apply List.map_congr_left
        intro e hee
        simp only [Function.comp_apply, Finset.inter_self]
        rw [List.toFinset_card_of_nodup (he _ hee).2.1, (he _ hee).1]
      rw [hconst, List.map_const', List.sum_replicate, nsmul_eq_mul, helen, mul_comm]
    rw [hsum, div_self hden]

/-- Witness for C1: two queries at depth two, ground truth ids
`[0, 1]` and `[2, 3]`, predictions matching the ground truth. -/
theorem get_accuracy_precision_bounds_witness :
    ∃ prec avg,
      (get_accuracy 2 [[0, 1], [2, 3]] [[1, 0], [0, 1]]
          { num_best := none, docSims := fun _ => [(0, 1)], vector_by_id := fun _ => [1, 0] }
          (some [([0, 1], [1, (1 : ℚ)/2]), ([2, 3], [1, (1 : ℚ)/2])])).1
        = some (prec, avg) ∧
      prec = (([[0, 1], [2, 3]].zip [([0, 1], [1, (1 : ℚ)/2]), ([2, 3], [1, (1 : ℚ)/2])]).map
          (fun pe => ((pe.2.1.toFinset ∩ pe.1.toFinset).card : ℚ))).sum
        / ((2 : ℚ) * ((List.length [[1, 0], [0, (1 : ℚ)]] : ℕ) : ℚ)) ∧
      0 ≤ prec ∧ prec ≤ 1 ∧
      ([[0, 1], [2, 3]] = [([0, 1], [1, (1 : ℚ)/2]), ([2, 3], [1, (1 : ℚ)/2])].map Prod.fst
        → prec = 1) :=
  get_accuracy_precision_bounds 2 [[0, 1], [2, 3]] [[1, 0], [0, 1]]
    { num_best := none, docSims := fun _ => [(0, 1)], vector_by_id := fun _ => [1, 0] }
    [([0, 1], [1, (1 : ℚ)/2]), ([2, 3], [1, (1 : ℚ)/2])]
    (by decide) (by decide) (by decide) (by decide)
    (by decide) (by decide)

lemma zipWith_negadd_replicate_zero (esims : List ℚ) :
    ∀ (n : ℕ), esims.length = n →
      List.zipWith (fun x y => -x + y) (List.replicate n (0 : ℚ)) esims = esims := by
  induction esims with
  | nil => intro n _; simp
  | cons a tl ih =>
    intro n h
    cases n with
    | zero => simp at h
    | succ m =>
      simp only [List.replicate_succ, List.zipWith_cons_cons, neg_zero, zero_add]
      rw [ih m (by simpa using h)]

lemma zip_map_snd {α β γ : Type} (f : β → γ) :
    ∀ (l1 : List α) (l2 : List β), l1.length = l2.length →
      (l1.zip l2).map (fun ab => f ab.2) = l2.map f
  | [], [], _ => by simp
  | [], _ :: _, h => by simp at h
  | _ :: _, [], h => by simp at h
  | a :: l1, b :: l2, h => by
    simp only [List.zip_cons_cons, List.map_cons]
    rw [zip_map_snd f l1 l2 (by simpa using h)]

/-- C4: the evaluator forms the padded similarity list (predicted
similarities followed by `topN - m` zero slots) before differencing,
and a backend returning an empty list for every query is scored with
precision `0` and an average similarity deviation equal to the average
of all expected similarities. -/
theorem get_accuracy_padding_empty_predictions
    (topN : ℕ) (qs : List Vec) (ix : GensimIndex)
    (es : List (List ℕ × List ℚ))
    (htn : 0 < topN) (hq : qs ≠ [])
    (helen : es.length = qs.length)
    (he : ∀ e ∈ es, e.2.length = topN) :
    (∀ (p : List ℕ) (q : Vec) (eids : List ℕ) (esims : List ℚ),
      queryStep topN ix p q eids esims =
        (slotCount p eids,
         npNegAdd (p.map (fun id1 => dot (ix.vector_by_id id1) q)
           ++ List.replicate (topN - p.length) 0) esims)) ∧
    (get_accuracy topN (List.replicate qs.length []) qs ix (some es)).1
      = some (0, (es.map (fun e => e.2.sum)).sum
          / (((qs.length * topN : ℕ) : ℚ))) := by
  have hq0 : 0 < qs.length := List.length_pos.mpr hq
  have hplen : (List.replicate qs.length ([] : List ℕ)).length = qs.length :=
    List.length_replicate ..
  have hzlen : ((List.replicate qs.length ([] : List ℕ)).zip qs).length = qs.length := by
    rw [List.length_zip, hplen, min_self]
  have hcond : ∀ pe ∈ ((List.replicate qs.length ([] : List ℕ)).zip qs).zip es,
      pe.1.1.length ≤ topN ∧ pe.2.2.length = topN := by
    intro pe hpe
    obtain ⟨h1, h2⟩ := List.of_mem_zip hpe
    obtain ⟨hp1, _⟩ := List.of_mem_zip h1
    have : pe.1.1 = [] := List.eq_of_mem_replicate hp1
    exact ⟨by rw [this]; simp, he _ h2⟩
  have hacc := accLoop_some_spec topN { ix with num_best := some topN }
    ((List.replicate qs.length ([] : List ℕ)).zip qs) es es 0 0 [] rfl
    (by rw [hzlen, helen]) hcond
  have hdlen := flatten_queryDiffs_length topN { ix with num_best := some topN }
    _ hcond
  have hden : (topN : ℚ) * (qs.length : ℚ) ≠ 0 :=
    mul_ne_zero (Nat.cast_ne_zero.mpr (by omega)) (Nat.cast_ne_zero.mpr (by omega))
  have hLlen : (((List.replicate qs.length ([] : List ℕ)).zip qs).zip es).length
      = qs.length := by
    rw [List.length_zip, hzlen, helen, min_self]
  have hD0 : (((((List.replicate qs.length ([] : List ℕ)).zip qs).zip es).map
      (fun pe => queryDiffs topN { ix with num_best := some topN }
        pe.1.1 pe.1.2 pe.2.2)).flatten.length : ℚ) ≠ 0 := by
    rw [hdlen, hLlen]
    exact Nat.cast_ne_zero.mpr (Nat.mul_ne_zero (by omega) (by omega))
  -- the diffs of every query are exactly its expected similarities
  have hdiffs : ((((List.replicate qs.length ([] : List ℕ)).zip qs).zip es).map
      (fun pe => queryDiffs topN { ix with num_best := some topN }
        pe.1.1 pe.1.2 pe.2.2))
      = ((((List.replicate qs.length ([] : List ℕ)).zip qs).zip es).map
          (fun pe => pe.2.2)) := by
    apply List.map_congr_left
    intro pe hpe
    obtain ⟨h1, h2⟩ := List.of_mem_zip hpe
    obtain ⟨hp1, _⟩ := List.of_mem_zip h1
    have hnil : pe.1.1 = [] := List.eq_of_mem_replicate hp1
    rw [hnil]
    unfold queryDiffs
    simp only [List.map_nil, List.length_nil, Nat.sub_zero, List.nil_append]
    exact zipWith_negadd_replicate_zero pe.2.2 topN (he _ h2)
  have hsnd : ((((List.replicate qs.length ([] : List ℕ)).zip qs).zip es).map
      (fun pe => pe.2.2)) = es.map (fun e => e.2) := by
    have := zip_map_snd (fun (e : List ℕ × List ℚ) => e.2)
      ((List.replicate qs.length ([] : List ℕ)).zip qs) es (by rw [hzlen, helen])
    exact this
  have hS0 : ((((List.replicate qs.length ([] : List ℕ)).zip qs).zip es).map
      (fun pe => (slotCount pe.1.1 pe.2.1 : ℚ))).sum = 0 := by
    have hz : ((((List.replicate qs.length ([] : List ℕ)).zip qs).zip es).map
        (fun pe => (slotCount pe.1.1 pe.2.1 : ℚ)))
        = ((((List.replicate qs.length ([] : List ℕ)).zip qs).zip es).map
            (fun _ => (0 : ℚ))) := by
      apply List.map_congr_left
      intro pe hpe
      obtain ⟨h1, _⟩ := List.of_mem_zip hpe
      obtain ⟨hp1, _⟩ := List.of_mem_zip h1
      have hnil : pe.1.1 = [] := List.eq_of_mem_replicate hp1
      rw [hnil]
      simp [slotCount]
    rw [hz, List.map_const', List.sum_replicate, smul_zero]
  refine ⟨?_, ?_⟩
  · intro p q eids esims
    simp [queryStep, slotCount]
  · have hsum : (es.map (fun e => e.2)).flatten.sum
        = (es.map (fun e => e.2.sum)).sum := by
      rw [List.sum_flatten, List.map_map]
      exact congrArg List.sum (List.map_congr_left (fun e _ => rfl))
    have hlen2 : (es.map (fun e => e.2)).flatten.length = qs.length * topN := by
      rw [List.length_flatten, List.map_map]
      have hc : es.map (List.length ∘ fun e => e.2) = es.map (fun _ => topN) :=
        List.map_congr_left (fun e hee => he e hee)
      rw [hc, List.map_const', List.sum_replicate, smul_eq_mul, helen]
    simp only [get_accuracy, hacc, zero_add, List.nil_append]
    rw [if_neg hden, if_neg hD0]
    rw [hS0, zero_div, hdiffs, hsnd, hsum, hlen2]

/-- Witness for C4: two queries at depth two with expected similarity
lists `[3, 4]` and `[7, 8]`. -/
theorem get_accuracy_padding_empty_predictions_witness :
    (∀ (p : List ℕ) (q : Vec) (eids : List ℕ) (esims : List ℚ),
      queryStep 2 (GensimIndex.mk none (fun _ => []) (fun _ => [1])) p q eids esims =
        (slotCount p eids,
         npNegAdd (p.map (fun id1 => dot ([1] : Vec) q)
           ++ List.replicate (2 - p.length) 0) esims)) ∧
    (get_accuracy 2 (List.replicate (List.length [[(1 : ℚ)], [2]]) []) [[1], [2]]
        (GensimIndex.mk none (fun _ => []) (fun _ => [1]))
        (some [([0, 1], [3, 4]), ([5, 6], [7, 8])])).1
      = some (0, ([([0, 1], [(3 : ℚ), 4]), ([5, 6], [7, 8])].map
            (fun e => e.2.sum)).sum
          / (((List.length [[(1 : ℚ)], [2]] * 2 : ℕ) : ℚ))) :=
  get_accuracy_padding_empty_predictions 2 [[1], [2]]
    (GensimIndex.mk none (fun _ => []) (fun _ => [1]))
    [([0, 1], [3, 4]), ([5, 6], [7, 8])]
    (by decide) (by decide) (by decide) (by decide)

lemma zipWith_negadd_self (l : List ℚ) :
    List.zipWith (fun x y => -x + y) l l = List.replicate l.length 0 := by
  induction l with
  | nil => simp
  | cons a tl ih =>
    simp only [List.zipWith_cons_cons, List.length_cons, List.replicate_succ, ih,
      neg_add_cancel]

/-- C5: when the predicted ids of a backend are exactly the ground-truth
ids, in ground-truth order, for every query, and the similarities the
oracle reports agree with the direct dot products it is scored against,
the average similarity deviation returned by `get_accuracy` is `0`. -/
theorem get_accuracy_exact_match_zero_diff
    (topN : ℕ) (qs : List Vec) (ix : GensimIndex)
    (htn : 0 < topN) (hq : qs ≠ [])
    (hdoc : ∀ q ∈ qs, ((ix.docSims q).take topN).length = topN)
    (hcons : ∀ q ∈ qs, ∀ pr ∈ (ix.docSims q).take topN,
      pr.2 = dot (ix.vector_by_id pr.1) q) :
    ∃ prec, (get_accuracy topN
        (qs.map (fun q => ((ix.docSims q).take topN).map Prod.fst)) qs ix none).1
      = some (prec, 0) := by
  have hq0 : 0 < qs.length := List.length_pos.mpr hq
  have hzip : (qs.map (fun q => ((ix.docSims q).take topN).map Prod.fst)).zip qs
      = qs.map (fun q => (((ix.docSims q).take topN).map Prod.fst, q)) := by
    have hmid := List.zip_map'
      (fun q => ((ix.docSims q).take topN).map Prod.fst) id qs
    simpa using hmid
  have hmem : ∀ pq ∈ (qs.map (fun q => ((ix.docSims q).take topN).map Prod.fst)).zip qs,
      ∃ q0 ∈ qs, pq = (((ix.docSims q0).take topN).map Prod.fst, q0) := by
    intro pq hpq
    rw [hzip] at hpq
    obtain ⟨q0, hq0', rfl⟩ := List.mem_map.mp hpq
    exact ⟨q0, hq0', rfl⟩
  have hcond : ∀ pq ∈ (qs.map (fun q => ((ix.docSims q).take topN).map Prod.fst)).zip qs,
      pq.1.length ≤ topN ∧
      ((({ ix with num_best := some topN } : GensimIndex).docSims pq.2).take topN).length
        = topN := by
    intro pq hpq
    obtain ⟨q0, hq0', rfl⟩ := hmem pq hpq
    refine ⟨?_, hdoc q0 hq0'⟩
    simp only [List.length_map]
    rw [hdoc q0 hq0']
  have hacc := accLoop_none_spec topN { ix with num_best := some topN } rfl htn
    ((qs.map (fun q => ((ix.docSims q).take topN).map Prod.fst)).zip qs) 0 0 [] hcond
  have hdiffs : ((qs.map (fun q => ((ix.docSims q).take topN).map Prod.fst)).zip qs).map
      (fun pq => queryDiffs topN { ix with num_best := some topN } pq.1 pq.2
        (((({ ix with num_best := some topN } : GensimIndex).docSims pq.2).take topN).map
          Prod.snd))
      = ((qs.map (fun q => ((ix.docSims q).take topN).map Prod.fst)).zip qs).map
          (fun _ => List.replicate topN (0 : ℚ)) := by
    apply List.map_congr_left
    intro pq hpq
    obtain ⟨q0, hq0', rfl⟩ := hmem pq hpq
    dsimp only
    unfold queryDiffs
    dsimp only
    have hps : ((((ix.docSims q0).take topN).map Prod.fst).map
          (fun id1 => dot (ix.vector_by_id id1) q0))
        = ((ix.docSims q0).take topN).map Prod.snd := by
      rw [List.map_map]
      exact List.map_congr_left (fun pr hpr => (hcons q0 hq0' pr hpr).symm)
    have hlenp : ((((ix.docSims q0).take topN).map Prod.fst)).length = topN := by
      simp only [List.length_map]
      exact hdoc q0 hq0'
    rw [hps, hlenp, Nat.sub_self, List.replicate_zero, List.append_nil,
      zipWith_negadd_self, List.length_map]
    rw [hdoc q0 hq0']
  have hden : (topN : ℚ) * (qs.length : ℚ) ≠ 0 :=
    mul_ne_zero (Nat.cast_ne_zero.mpr (by omega)) (Nat.cast_ne_zero.mpr (by omega))
  have hlen1 : ((qs.map (fun q => ((ix.docSims q).take topN).map Prod.fst)).zip qs).length
      = qs.length := by
    rw [List.length_zip, List.length_map, min_self]
  have hflatlen : ((((qs.map (fun q => ((ix.docSims q).take topN).map Prod.fst)).zip qs).map
      (fun _ => List.replicate topN (0 : ℚ))).flatten).length = qs.length * topN := by
    rw [List.length_flatten, List.map_map]
    have hc : (((qs.map (fun q => ((ix.docSims q).take topN).map Prod.fst)).zip qs).map
        (List.length ∘ fun _ => List.replicate topN (0 : ℚ)))
        = (((qs.map (fun q => ((ix.docSims q).take topN).map Prod.fst)).zip qs).map
            (fun _ => topN)) :=
      List.map_congr_left (fun _ _ => List.length_replicate ..)
    rw [hc, List.map_const', List.sum_replicate, smul_eq_mul, hlen1]
  have hflatsum : ((((qs.map (fun q => ((ix.docSims q).take topN).map Prod.fst)).zip qs).map
      (fun _ => List.replicate topN (0 : ℚ))).flatten).sum = 0 := by
    rw [List.sum_flatten, List.map_map]
    have hc : (((qs.map (fun q => ((ix.docSims q).take topN).map Prod.fst)).zip qs).map
        (List.sum ∘ fun _ => List.replicate topN (0 : ℚ)))
        = (((qs.map (fun q => ((ix.docSims q).take topN).map Prod.fst)).zip qs).map
            (fun _ => (0 : ℚ))) :=
      List.map_congr_left (fun _ _ => by
        simp [List.sum_replicate])
    rw [hc, List.map_const', List.sum_replicate, smul_zero]
  have hD0 : ((((qs.map (fun q => ((ix.docSims q).take topN).map Prod.fst)).zip qs).map
      (fun pq => queryDiffs topN { ix with num_best := some topN } pq.1 pq.2
        (((({ ix with num_best := some topN } : GensimIndex).docSims pq.2).take topN).map
          Prod.snd))).flatten.length : ℚ) ≠ 0 := by
    rw [hdiffs, hflatlen]
    exact Nat.cast_ne_zero.mpr (Nat.mul_ne_zero (by omega) (by omega))
  have hfinal : (get_accuracy topN
      (qs.map (fun q => ((ix.docSims q).take topN).map Prod.fst)) qs ix none).1
      = some ((((qs.map (fun q => ((ix.docSims q).take topN).map Prod.fst)).zip qs).map
          (fun pq => (slotCount pq.1
            (((({ ix with num_best := some topN } : GensimIndex).docSims pq.2).take topN).map
              Prod.fst) : ℚ))).sum
          / ((topN : ℚ) * (qs.length : ℚ)), 0) := by
    simp only [get_accuracy, hacc, zero_add, List.nil_append]
    rw [if_neg hden, if_neg hD0]
    rw [hdiffs, hflatsum, zero_div]
  exact ⟨_, hfinal⟩

/-- Witness for C5: one query, depth one, oracle similarity agreeing
with the recomputed dot product. -/
theorem get_accuracy_exact_match_zero_diff_witness :
    ∃ prec, (get_accuracy 1
        ([[(2 : ℚ)]].map (fun q =>
          (((GensimIndex.mk none (fun _ => [(7, 4)]) (fun _ => [2])).docSims q).take 1).map
            Prod.fst))
        [[(2 : ℚ)]]
        (GensimIndex.mk none (fun _ => [(7, 4)]) (fun _ => [2])) none).1
      = some (prec, 0) :=
  get_accuracy_exact_match_zero_diff 1 [[(2 : ℚ)]]
    (GensimIndex.mk none (fun _ => [(7, 4)]) (fun _ => [2]))
    (by decide) (by decide) (by decide)
    (by
      intro q hq pr hpr
      simp only [List.mem_singleton] at hq
      subst hq
      simp only [List.take, List.mem_singleton] at hpr
      subst hpr
      norm_num [dot])

/-- C2 (counterexample): ground truth is not computed once per run and
reused: two backend evaluations in the same run perform one oracle
query each (two in total for a one-query workload), and in particular
the second backend's evaluation does recompute ground truth. -/
theorem groundTruth_recomputed_per_backend_cex :
    (mainBackendEval 1 (fun _ => [[0]]) [[(1 : ℚ)]]
        (GensimIndex.mk none (fun _ => [(0, 1)]) (fun _ => [1]))).2.2
      + (mainBackendEval 1 (fun _ => [[1]]) [[(1 : ℚ)]]
          (GensimIndex.mk none (fun _ => [(0, 1)]) (fun _ => [1]))).2.2 = 2 ∧
    (mainBackendEval 1 (fun _ => [[1]]) [[(1 : ℚ)]]
        (GensimIndex.mk none (fun _ => [(0, 1)]) (fun _ => [1]))).2.2 ≠ 0 := by
  decide

/-- C2 (amended): `get_accuracy` supports reuse through its `expecteds`
parameter, but the main block always invokes it with `expecteds = None`;
under that default, the evaluation of every backend recomputes ground
truth, querying the oracle once per query. -/
theorem groundTruth_recomputed_per_backend
    (topN : ℕ) (predictions : List Vec → List (List ℕ)) (qs : List Vec)
    (ix : GensimIndex)
    (htn : 0 < topN)
    (hplen : (predictions qs).length = qs.length)
    (hp : ∀ p ∈ predictions qs, p.length ≤ topN)
    (hdoc : ∀ q ∈ qs, ((ix.docSims q).take topN).length = topN) :
    (mainBackendEval topN predictions qs ix).2.2 = qs.length := by
  have hcond : ∀ pq ∈ (predictions qs).zip qs,
      pq.1.length ≤ topN ∧
      ((({ ix with num_best := some topN } : GensimIndex).docSims pq.2).take topN).length
        = topN := by
    intro pq hpq
    obtain ⟨h1, h2⟩ := List.of_mem_zip hpq
    exact ⟨hp _ h1, hdoc _ h2⟩
  have hacc := accLoop_none_spec topN { ix with num_best := some topN } rfl htn
    ((predictions qs).zip qs) 0 0 [] hcond
  have hzl : ((predictions qs).zip qs).length = qs.length := by
    rw [List.length_zip, hplen, min_self]
  simp only [mainBackendEval, log_precision, get_accuracy, hacc]
  exact hzl

/-- Witness for C2 (amended): a one-query run whose backend evaluation
performs one oracle query. -/
theorem groundTruth_recomputed_per_backend_witness :
    (mainBackendEval 1 (fun _ => [[0]]) [[(1 : ℚ)]]
        (GensimIndex.mk none (fun _ => [(0, 1)]) (fun _ => [1]))).2.2
      = (List.length [[(1 : ℚ)]]) :=
  groundTruth_recomputed_per_backend 1 (fun _ => [[0]]) [[(1 : ℚ)]]
    (GensimIndex.mk none (fun _ => [(0, 1)]) (fun _ => [1]))
    (by decide) (by decide) (by decide) (by decide)

/-- C3 (counterexample): an error in an earlier backend section is not
caught at the main-block boundary; a later enabled backend does not run
and produces no result. -/
theorem backend_error_stops_run_cex :
    orchestrate [("flann", Except.error "boom"), ("annoy", Except.ok ())]
      = ([], some ("flann", "boom")) ∧
    "annoy" ∉ (orchestrate
      [("flann", Except.error "boom"), ("annoy", Except.ok ())]).1 := by
  refine ⟨rfl, ?_⟩
  intro h
  simp [orchestrate] at h

/-- C3 (amended): the main block wraps no backend section in an
exception handler: the first backend error propagates out, the sections
before it are the only ones that complete, and no later backend
runs. -/
theorem backend_error_aborts_remaining
    (pre : List (String × Except String Unit)) (b msg : String)
    (post : List (String × Except String Unit))
    (hok : ∀ s ∈ pre, s.2 = Except.ok ()) :
    orchestrate (pre ++ (b, Except.error msg) :: post)
      = (pre.map Prod.fst, some (b, msg)) := by
  induction pre with
  | nil => simp [orchestrate]
  | cons s rest ih =>
    obtain ⟨name, act⟩ := s
    have hs : act = Except.ok () := hok (name, act) (by simp)
    subst hs
    simp only [List.cons_append, orchestrate, List.append_eq]
    rw [ih (fun x hx => hok x (List.mem_cons_of_mem _ hx))]
    simp

/-- Witness for C3 (amended): one healthy section before the failing
one, one enabled section after it. -/
theorem backend_error_aborts_remaining_witness :
    orchestrate [("gensim", Except.ok ()),
        ("flann", Except.error "fail"), ("annoy", Except.ok ())]
      = (["gensim"], some ("flann", "fail")) :=
  backend_error_aborts_remaining [("gensim", Except.ok ())] "flann" "fail"
    [("annoy", Except.ok ())]
    (by
      intro s hs
      rw [List.mem_singleton] at hs
      subst hs
      rfl)

/-- C6 (counterexample): the per-query latency logged by `profile` is
not the minimum duration divided by the number of queries in the
workload: on a 50-query workload with one-second passes it logs
`10` ms/query (dividing by the constant `NUM_QUERIES = 100`) where the
claimed figure is `20`. -/
theorem profile_latency_divisor_cex :
    profile_report (fun _ => 1) (List.replicate 50 ([] : Vec)) = 10 ∧
    specPerQueryLatency (fun _ => 1) (List.replicate 50 ([] : Vec)) = 20 ∧
    profile_report (fun _ => 1) (List.replicate 50 ([] : Vec))
      ≠ specPerQueryLatency (fun _ => 1) (List.replicate 50 ([] : Vec)) := by
  refine ⟨?_, ?_, ?_⟩ <;>
    norm_num [profile_report, specPerQueryLatency, profileTimes, listMin,
      NUM_QUERIES, REPEATS, List.range_succ]

/-- C6 (amended): the timing wrapper runs the workload exactly
`REPEATS = 3` times, recording the duration of each pass, and reports
the minimum of the recorded durations; the logged ms-per-query figure
divides by the module constant `NUM_QUERIES`, which coincides with the
workload query count exactly when the workload has `NUM_QUERIES`
queries. -/
theorem profile_report_spec (dur : ℕ → ℚ) (queries : List Vec) :
    profileTimes dur = [dur 0, dur 1, dur 2] ∧
    (∀ x ∈ profileTimes dur, listMin (profileTimes dur) ≤ x) ∧
    profile_report dur queries
      = 1000 * listMin (profileTimes dur) / ((NUM_QUERIES : ℕ) : ℚ) ∧
    (queries.length = NUM_QUERIES →
      profile_report dur queries
        = 1000 * listMin (profileTimes dur) / ((queries.length : ℕ) : ℚ)) := by
  have htimes : profileTimes dur = [dur 0, dur 1, dur 2] := rfl
  refine ⟨htimes, ?_, ?_, ?_⟩
  · intro x hx
    rw [htimes] at hx
    have hlm : listMin (profileTimes dur) = min (min (dur 0) (dur 1)) (dur 2) := rfl
    rw [hlm]
    simp only [List.mem_cons, List.not_mem_nil, or_false] at hx
    rcases hx with rfl | rfl | rfl
    · exact le_trans (min_le_left _ _) (min_le_left _ _)
    · exact le_trans (min_le_left _ _) (min_le_right _ _)
    · exact min_le_right _ _
  · rfl
  · intro hlen
    rw [hlen]
    rfl

/-- Witness for C6 (amended) on a workload of exactly `NUM_QUERIES`
queries. -/
theorem profile_report_spec_witness :
    profileTimes (fun i => (i : ℚ) + 2) = [2, 3, 4] ∧
    (∀ x ∈ profileTimes (fun i => (i : ℚ) + 2),
      listMin (profileTimes (fun i => (i : ℚ) + 2)) ≤ x) ∧
    profile_report (fun i => (i : ℚ) + 2) (List.replicate 100 ([] : Vec))
      = 1000 * listMin (profileTimes (fun i => (i : ℚ) + 2)) / ((NUM_QUERIES : ℕ) : ℚ) ∧
    ((List.replicate 100 ([] : Vec)).length = NUM_QUERIES →
      profile_report (fun i => (i : ℚ) + 2) (List.replicate 100 ([] : Vec))
        = 1000 * listMin (profileTimes (fun i => (i : ℚ) + 2))
          / (((List.replicate 100 ([] : Vec)).length : ℕ) : ℚ)) := by
  have h := profile_report_spec (fun i => (i : ℚ) + 2) (List.replicate 100 ([] : Vec))
  refine ⟨?_, h.2.1, h.2.2.1, h.2.2.2⟩
  rw [h.1]
  norm_num

/-- C7: at `K = 1` the prediction adapter unwraps the bare flat
(id array, distance array) result of `nn_index` into the per-query id
list; the resulting predictions are one-element lists and the evaluator
scores them exactly as it scores a backend that directly returns a
one-element ranked list per query. -/
theorem flann_predictions_k1_unwrap
    (ans : Vec → List ℕ) (dst : Vec → List ℚ) (qs : List Vec)
    (h1 : ∀ q ∈ qs, (ans q).length = 1) :
    flann_predictions 1 ans dst qs = qs.map (fun q => ans q) ∧
    (∀ (topNx : ℕ) (ix : GensimIndex) (exp : Option (List (List ℕ × List ℚ))),
      get_accuracy topNx (flann_predictions 1 ans dst qs) qs ix exp
        = get_accuracy topNx (qs.map (fun q => ans q)) qs ix exp) ∧
    (∀ q ∈ qs, ∃ i, ans q = [i]) := by
  have hpred : flann_predictions 1 ans dst qs = qs.map (fun q => ans q) := by
    simp [flann_predictions, nn_index]
  refine ⟨hpred, fun topNx ix exp => by rw [hpred], ?_⟩
  intro q hq
  cases hansq : ans q with
  | nil =>
    exfalso
    have hlen := h1 q hq
    rw [hansq] at hlen
    simp at hlen
  | cons i tl =>
    have hlen := h1 q hq
    rw [hansq] at hlen
    simp only [List.length_cons] at hlen
    have htl : tl = [] := List.length_eq_zero.mp (by omega)
    exact ⟨i, by rw [htl]⟩

/-- Witness for C7: a single query whose flat `nn_index` answer is the
one id `5`. -/
theorem flann_predictions_k1_unwrap_witness :
    flann_predictions 1 (fun _ => [5]) (fun _ => [(3 : ℚ)]) [[(1 : ℚ)]]
      = [[(1 : ℚ)]].map (fun _ => [5]) ∧
    (∀ (topNx : ℕ) (ix : GensimIndex) (exp : Option (List (List ℕ × List ℚ))),
      get_accuracy topNx (flann_predictions 1 (fun _ => [5]) (fun _ => [(3 : ℚ)]) [[(1 : ℚ)]])
          [[(1 : ℚ)]] ix exp
        = get_accuracy topNx ([[(1 : ℚ)]].map (fun _ => [5])) [[(1 : ℚ)]] ix exp) ∧
    (∀ q ∈ [[(1 : ℚ)]], ∃ i, (fun (_ : Vec) => [5]) q = [i]) :=
  flann_predictions_k1_unwrap (fun _ => [5]) (fun _ => [(3 : ℚ)]) [[(1 : ℚ)]]
    (by decide)

end Shootout
